import Mathlib

/-!
Verification of the FloraWatch analysis core (flowering_detector.py and
data_processor.py) against its natural-language specification.

Modelling conventions:
* Numeric observation values are modelled as exact rationals; the idealized
  real-number semantics of the Python float computations.
* Quantities that Python computes as IEEE-754 specials (inf / -inf / nan)
  are modelled by the type FVal below, which implements numpy scalar
  arithmetic and Python builtin min/max comparison semantics symbolically.
* np.std returns a nonnegative real square root which is in general not
  rational; wherever a standard deviation only flows into an output field
  (never into a branch that a theorem depends on exactly) it is modelled as
  an arbitrary oracle function (std : List Rat -> Rat) and every theorem is
  universally quantified over that oracle, so the theorems in particular
  hold for the true standard deviation.  Wherever the code branches on a
  comparison (x > c * std l), the comparison is embedded by the exactly
  equivalent squared form (x > 0 and x^2 > c^2 * variance l); the lemma
  gt_sqrt_iff_sq below proves the equivalence over the reals.
* Calendar dates (parsed by strptime from YYYY-MM-DD strings) are modelled
  by the Date structure with proleptic Gregorian day-of-year and ordinal
  arithmetic, matching Python datetime semantics.
-/

namespace FloraWatch

/-! ## Calendar dates (Python datetime) -/

/-- Gregorian leap-year test, as in Python's calendar. -/
def isLeap (y : Nat) : Bool :=
  (y % 4 == 0 && y % 100 != 0) || y % 400 == 0

/-- Number of days of month m (1-12) in year y. -/
def daysInMonth (y : Nat) (m : Nat) : Nat :=
  match m with
  | 1 => 31 | 2 => if isLeap y then 29 else 28 | 3 => 31 | 4 => 30
  | 5 => 31 | 6 => 30 | 7 => 31 | 8 => 31
  | 9 => 30 | 10 => 31 | 11 => 30 | 12 => 31
  | _ => 0

/-- Days in year y strictly before month m. -/
def cumDaysBefore (y : Nat) : Nat → Nat
  | 0 => 0
  | 1 => 0
  | m + 2 => cumDaysBefore y (m + 1) + daysInMonth y (m + 1)

theorem cumDaysBefore_eq (y m : Nat) :
    cumDaysBefore y (m + 2) = cumDaysBefore y (m + 1) + daysInMonth y (m + 1) := rfl

/-- Calendar date, as produced by datetime.strptime of a YYYY-MM-DD string. -/
structure Date where
  year : Nat
  month : Nat
  day : Nat
  deriving DecidableEq, Repr

/-- Well-formed calendar date (strptime only yields such dates). -/
def ValidDate (d : Date) : Prop :=
  1 ≤ d.month ∧ d.month ≤ 12 ∧ 1 ≤ d.day ∧ d.day ≤ daysInMonth d.year d.month

instance (d : Date) : Decidable (ValidDate d) := by
  unfold ValidDate; infer_instance

/-- Day of year (timetuple().tm_yday in Python), 1-366. -/
def doy (d : Date) : Nat :=
  cumDaysBefore d.year d.month + d.day

/-- Number of leap years strictly before year y (among 1..y-1). -/
def leapsBefore (y : Nat) : Nat :=
  ((List.range y).filter (fun k => isLeap k)).length

/-- Proleptic Gregorian ordinal of a date (like datetime.date.toordinal);
difference of two ordinals equals the .days of the timedelta between them. -/
def toOrdinal (d : Date) : Int :=
  365 * ((d.year : Int) - 1) + (leapsBefore d.year : Int) + (doy d : Int)

/-- Successor calendar day. -/
def nextDay (d : Date) : Date :=
  if d.day < daysInMonth d.year d.month then ⟨d.year, d.month, d.day + 1⟩
  else if d.month < 12 then ⟨d.year, d.month + 1, 1⟩
  else ⟨d.year + 1, 1, 1⟩

/-- Date plus n days (Python date + timedelta(days=n)). -/
def addDays (d : Date) : Nat → Date
  | 0 => d
  | n + 1 => nextDay (addDays d n)

theorem daysInMonth_pos (y m : Nat) (h1 : 1 ≤ m) (h2 : m ≤ 12) :
    1 ≤ daysInMonth y m := by
  interval_cases m <;> simp [daysInMonth] <;> split <;> omega

theorem nextDay_valid (d : Date) (h : ValidDate d) : ValidDate (nextDay d) := by
  obtain ⟨h1, h2, h3, h4⟩ := h
  unfold nextDay ValidDate
  split
  · dsimp only
    exact ⟨h1, h2, by omega, by omega⟩
  · split
    · dsimp only
      refine ⟨by omega, by omega, le_refl 1, ?_⟩
      exact daysInMonth_pos d.year (d.month + 1) (by omega) (by omega)
    · dsimp only
      exact ⟨by omega, by omega, le_refl 1,
        daysInMonth_pos (d.year + 1) 1 (by omega) (by omega)⟩

theorem leapsBefore_succ (y : Nat) :
    leapsBefore (y + 1) = leapsBefore y + (if isLeap y then 1 else 0) := by
  unfold leapsBefore
  rw [List.range_succ, List.filter_append]
  by_cases h : isLeap y <;> simp [h]

theorem cumDaysBefore_13 (y : Nat) :
    cumDaysBefore y 13 = 365 + (if isLeap y then 1 else 0) := by
  have e12 : cumDaysBefore y 13 = cumDaysBefore y 12 + daysInMonth y 12 := cumDaysBefore_eq y 11
  have e11 : cumDaysBefore y 12 = cumDaysBefore y 11 + daysInMonth y 11 := cumDaysBefore_eq y 10
  have e10 : cumDaysBefore y 11 = cumDaysBefore y 10 + daysInMonth y 10 := cumDaysBefore_eq y 9
  have e9 : cumDaysBefore y 10 = cumDaysBefore y 9 + daysInMonth y 9 := cumDaysBefore_eq y 8
  have e8 : cumDaysBefore y 9 = cumDaysBefore y 8 + daysInMonth y 8 := cumDaysBefore_eq y 7
  have e7 : cumDaysBefore y 8 = cumDaysBefore y 7 + daysInMonth y 7 := cumDaysBefore_eq y 6
  have e6 : cumDaysBefore y 7 = cumDaysBefore y 6 + daysInMonth y 6 := cumDaysBefore_eq y 5
  have e5 : cumDaysBefore y 6 = cumDaysBefore y 5 + daysInMonth y 5 := cumDaysBefore_eq y 4
  have e4 : cumDaysBefore y 5 = cumDaysBefore y 4 + daysInMonth y 4 := cumDaysBefore_eq y 3
  have e3 : cumDaysBefore y 4 = cumDaysBefore y 3 + daysInMonth y 3 := cumDaysBefore_eq y 2
  have e2 : cumDaysBefore y 3 = cumDaysBefore y 2 + daysInMonth y 2 := cumDaysBefore_eq y 1
  have e1 : cumDaysBefore y 2 = cumDaysBefore y 1 + daysInMonth y 1 := cumDaysBefore_eq y 0
  have e0 : cumDaysBefore y 1 = 0 := rfl
  by_cases h : isLeap y <;>
    simp [daysInMonth, h] at e12 e11 e10 e9 e8 e7 e6 e5 e4 e3 e2 e1 ⊢ <;> omega

theorem toOrdinal_nextDay (d : Date) (h : ValidDate d) :
    toOrdinal (nextDay d) = toOrdinal d + 1 := by
  obtain ⟨h1, h2, h3, h4⟩ := h
  unfold nextDay
  split
  · simp only [toOrdinal, doy]
    omega
  · split
    · have hc : cumDaysBefore d.year (d.month + 1) =
          cumDaysBefore d.year d.month + daysInMonth d.year d.month := by
        obtain ⟨k, hk⟩ : ∃ k, d.month = k + 1 := ⟨d.month - 1, by omega⟩
        rw [hk]
        exact cumDaysBefore_eq d.year k
      simp only [toOrdinal, doy]
      rw [hc]
      omega
    · have hm12 : d.month = 12 := by omega
      have h31 : daysInMonth d.year d.month = 31 := by rw [hm12]; simp [daysInMonth]
      have hday : d.day = 31 := by omega
      have hcum13 : cumDaysBefore d.year 13 =
          cumDaysBefore d.year 12 + daysInMonth d.year 12 := cumDaysBefore_eq d.year 11
      have h31' : daysInMonth d.year 12 = 31 := by simp [daysInMonth]
      have hcum := cumDaysBefore_13 d.year
      simp only [toOrdinal, doy]
      rw [hm12, hday, leapsBefore_succ]
      have hc1 : cumDaysBefore (d.year + 1) 1 = 0 := rfl
      rw [hc1]
      by_cases hL : isLeap d.year <;>
        simp only [hL, if_true, if_false] at hcum ⊢ <;> omega

theorem addDays_valid (d : Date) (h : ValidDate d) (n : Nat) :
    ValidDate (addDays d n) := by
  induction n with
  | zero => exact h
  | succ k ih => exact nextDay_valid _ ih

theorem toOrdinal_addDays (d : Date) (h : ValidDate d) (n : Nat) :
    toOrdinal (addDays d n) = toOrdinal d + n := by
  induction n with
  | zero => simp [addDays]
  | succ k ih =>
      have := toOrdinal_nextDay (addDays d k) (addDays_valid d h k)
      simp [addDays, this, ih]; omega

/-! ## Symbolic float values: exact rationals plus IEEE specials

FVal models the value of a Python / numpy float scalar in idealized (exact)
arithmetic: either a finite rational or one of the specials inf, -inf, nan.
The operations below implement numpy scalar semantics (division by zero
yields a signed infinity or nan, nan propagates) and Python builtin
min/max two-argument semantics (comparisons with nan are False, so
min(a, b) keeps a when b is nan). -/

inductive FVal where
  | finite (q : ℚ)
  | pinf
  | ninf
  | nan
  deriving DecidableEq, Repr

namespace FVal

/-- Strict less-than of float values; any comparison with nan is False. -/
def flt : FVal → FVal → Bool
  | finite a, finite b => a < b
  | finite _, pinf => true
  | ninf, finite _ => true
  | ninf, pinf => true
  | _, _ => false

/-- Python builtin min(a, b): returns b only when b < a. -/
def pymin (a b : FVal) : FVal := if flt b a then b else a

/-- Python builtin max(a, b): returns b only when a < b. -/
def pymax (a b : FVal) : FVal := if flt a b then b else a

def neg : FVal → FVal
  | finite a => finite (-a)
  | pinf => ninf
  | ninf => pinf
  | nan => nan

def add : FVal → FVal → FVal
  | finite a, finite b => finite (a + b)
  | finite _, pinf => pinf
  | finite _, ninf => ninf
  | pinf, finite _ => pinf
  | ninf, finite _ => ninf
  | pinf, pinf => pinf
  | ninf, ninf => ninf
  | pinf, ninf => nan
  | ninf, pinf => nan
  | _, _ => nan

def sub (a b : FVal) : FVal := add a (neg b)

def mul : FVal → FVal → FVal
  | finite a, finite b => finite (a * b)
  | finite a, pinf => if a > 0 then pinf else if a < 0 then ninf else nan
  | finite a, ninf => if a > 0 then ninf else if a < 0 then pinf else nan
  | pinf, finite b => if b > 0 then pinf else if b < 0 then ninf else nan
  | ninf, finite b => if b > 0 then ninf else if b < 0 then pinf else nan
  | pinf, pinf => pinf
  | ninf, ninf => pinf
  | pinf, ninf => ninf
  | ninf, pinf => ninf
  | _, _ => nan

/-- Division with numpy semantics: x/0 is a signed infinity (nan for 0/0). -/
def div : FVal → FVal → FVal
  | finite a, finite b =>
      if b = 0 then (if a > 0 then pinf else if a < 0 then ninf else nan)
      else finite (a / b)
  | finite _, pinf => finite 0
  | finite _, ninf => finite 0
  | pinf, finite b => if b < 0 then ninf else pinf
  | ninf, finite b => if b < 0 then pinf else ninf
  | _, _ => nan

/-- Clamp to the unit interval the way the source does:
max(0.0, min(1.0, x)) with Python builtin min/max. -/
def clamp01 (x : FVal) : FVal := pymax (finite 0) (pymin (finite 1) x)

/-- Key safety fact: the final clamp of the confidence computation lands in
a finite value inside the unit interval whatever float (finite, infinite or
nan) comes out of the weighted sum. -/
theorem clamp01_mem (x : FVal) :
    ∃ q : ℚ, clamp01 x = finite q ∧ 0 ≤ q ∧ q ≤ 1 := by
  cases x with
  | finite a =>
      by_cases h1 : a < 1
      · by_cases h0 : 0 < a
        · exact ⟨a, by simp [clamp01, pymin, pymax, flt, h1, h0, not_lt.2 (le_of_lt h0)], le_of_lt h0, le_of_lt h1⟩
        · exact ⟨0, by simp [clamp01, pymin, pymax, flt, h1, h0], le_refl 0, by norm_num⟩
      · exact ⟨1, by simp [clamp01, pymin, pymax, flt, h1], by norm_num, le_refl 1⟩
  | pinf => exact ⟨1, by simp [clamp01, pymin, pymax, flt], by norm_num, le_refl 1⟩
  | ninf => exact ⟨0, by simp [clamp01, pymin, pymax, flt], le_refl 0, by norm_num⟩
  | nan => exact ⟨1, by simp [clamp01, pymin, pymax, flt], by norm_num, le_refl 1⟩

end FVal

/-! ## List statistics over exact rationals -/

/-- Sum of a list of rationals. -/
def listSum (l : List ℚ) : ℚ := l.sum

/-- Arithmetic mean (np.mean); 0 is a junk value for the empty list, on
which numpy returns nan after a warning — every use below is guarded so
that the empty case never feeds a produced result. -/
def meanQ (l : List ℚ) : ℚ := if l.length = 0 then 0 else listSum l / l.length

/-- Population variance (square of np.std with its default ddof=0). -/
def varQ (l : List ℚ) : ℚ :=
  if l.length = 0 then 0
  else listSum (l.map (fun x => (x - meanQ l) ^ 2)) / l.length

/-- Sample variance (square of the pandas groupby std, ddof=1); junk 0 for
lists of length < 2, on which pandas returns NaN — the call site guards
with a group-size test exactly as the NaN comparison in the source does. -/
def sampleVarQ (l : List ℚ) : ℚ :=
  if l.length < 2 then 0
  else listSum (l.map (fun x => (x - meanQ l) ^ 2)) / (l.length - 1 : ℕ)

/-- Largest element (np.max); junk 0 for the empty list (numpy raises). -/
def listMaxQ (l : List ℚ) : ℚ :=
  match l with
  | [] => 0
  | x :: xs => xs.foldl (fun a b => if a < b then b else a) x

/-- Smallest element (np.min); junk 0 for the empty list (numpy raises). -/
def listMinQ (l : List ℚ) : ℚ :=
  match l with
  | [] => 0
  | x :: xs => xs.foldl (fun a b => if b < a then b else a) x

/-- Single step of the running argmax scan: state is
(best index so far, index of the next element, best value so far). -/
def argmaxStep (p : ℕ × ℕ × ℚ) (b : ℚ) : ℕ × ℕ × ℚ :=
  if p.2.2 < b then (p.2.1, p.2.1 + 1, b) else (p.1, p.2.1 + 1, p.2.2)

/-- Index of the first occurrence of the maximum (np.argmax). -/
def argmaxQ (l : List ℚ) : ℕ :=
  match l with
  | [] => 0
  | x :: xs => (xs.foldl argmaxStep (0, 1, x)).1

theorem argmax_fold_lt (ys : List ℚ) : ∀ (best next : ℕ) (bv : ℚ), best < next →
    (ys.foldl argmaxStep (best, next, bv)).1 < next + ys.length := by
  induction ys with
  | nil =>
      intro best next bv hb
      simpa using hb
  | cons z zs ih =>
      intro best next bv hb
      have hstep : argmaxStep (best, next, bv) z =
          if bv < z then (next, next + 1, z) else (best, next + 1, bv) := rfl
      rw [List.foldl_cons, hstep, List.length_cons]
      by_cases hz : bv < z
      · rw [if_pos hz]
        have := ih next (next + 1) z (by omega)
        omega
      · rw [if_neg hz]
        have := ih best (next + 1) bv (by omega)
        omega

theorem argmaxQ_lt_length (l : List ℚ) (h : l ≠ []) : argmaxQ l < l.length := by
  match l with
  | [] => exact absurd rfl h
  | x :: xs =>
      have := argmax_fold_lt xs 0 1 x (by omega)
      simp only [argmaxQ, List.length_cons]
      omega

/-! ## FloweringDetector: configuration and shared helpers -/

/-- DetectionConfig min_duration_days. -/
def minDurationDays : ℤ := 5

/-- DetectionConfig max_duration_days. -/
def maxDurationDays : ℤ := 45

/-- DetectionConfig ndvi_flowering_threshold. -/
def ndviFloweringThreshold : ℚ := 3 / 20

/-- DetectionConfig anomaly_threshold_sigma. -/
def anomalyThresholdSigma : ℚ := 2

/-- DetectionConfig smoothing_window. -/
def smoothingWindow : ℕ := 3

/-- Centered moving average as computed by
pandas Series.rolling(window=w, center=True, min_periods=1).mean():
position i averages indices [i - ceil((w-1)/2), i + floor((w-1)/2)]
clipped to the sequence. -/
def rollingMeanC (w : ℕ) (xs : List ℚ) : List ℚ :=
  (List.range xs.length).map (fun i =>
    meanQ ((xs.take (min xs.length (i + (w - 1) / 2 + 1))).drop
      (i - (w - 1 - (w - 1) / 2))))

/-- FloweringDetector._smooth_time_series. -/
def smoothTimeSeries (values : List ℚ) : List ℚ :=
  if values.length < smoothingWindow then values else rollingMeanC smoothingWindow values

/-- Default date used to read off a list entry; every index used by the
detector is in range, so this junk value never surfaces. -/
def d0 : Date := ⟨1, 1, 1⟩

/-- FloweringDetector._calculate_confidence, body past the empty-indices
guard.  The np.std values (irrational reals in general) enter through the
oracle argument std; all other quantities are exact.  The weighted sum is
Python sum() over the insertion-ordered factor dict, starting from 0. -/
def calcConfidenceCore (std : List ℚ → ℚ) (eventIndices : List ℕ) (values : List ℚ) : FVal :=
  let eventValues := eventIndices.map (fun i => values.getD i 0)
  let intensity := FVal.pymin (FVal.finite 1)
    (FVal.div (FVal.finite (listMaxQ eventValues - meanQ values)) (FVal.finite (std values)))
  let duration := FVal.pymin (FVal.finite 1) (FVal.finite ((eventIndices.length : ℚ) / 5))
  let consistency :=
    if meanQ eventValues > 0 then
      FVal.sub (FVal.finite 1)
        (FVal.div (FVal.finite (std eventValues)) (FVal.finite (meanQ eventValues)))
    else FVal.finite 0
  let contrast := FVal.pymin (FVal.finite 1)
    (FVal.sub (FVal.div (FVal.finite (meanQ eventValues)) (FVal.finite (meanQ values)))
      (FVal.finite 1))
  FVal.clamp01
    (FVal.add
      (FVal.add
        (FVal.add
          (FVal.add (FVal.finite 0) (FVal.mul intensity (FVal.finite (2 / 5))))
          (FVal.mul duration (FVal.finite (1 / 5))))
        (FVal.mul consistency (FVal.finite (1 / 5))))
      (FVal.mul contrast (FVal.finite (1 / 5))))

/-- FloweringDetector._calculate_confidence.  Returns none when the numpy
fancy indexing values[event_indices] would raise IndexError (an index out
of range); the surrounding detect_events try/except turns that into an
empty result. -/
def calcConfidence (std : List ℚ → ℚ) (eventIndices : List ℕ) (values : List ℚ) :
    Option FVal :=
  if eventIndices = [] then some (FVal.finite 0)
  else if eventIndices.any (fun i => values.length ≤ i) then none
  else some (calcConfidenceCore std eventIndices values)

/-- Detected flowering event (the dict built by the detector before
enrichment).  The YYYY-MM-DD strings of the source are represented by
their parsed Date values. -/
structure EventQ where
  start_date : Date
  end_date : Date
  peak_date : Date
  duration_days : ℤ
  peak_value : ℚ
  intensity : ℚ
  confidence : FVal
  deriving DecidableEq, Repr

/-! ## Grouping consecutive exceedances -/

/-- Loop of _group_consecutive_exceedances that collects maximal runs of
consecutive True indices, in order; i is the index of the head of the
remaining mask. -/
def collectGroups : ℕ → List Bool → List ℕ → List (List ℕ) → List (List ℕ)
  | _, [], cur, acc => if cur = [] then acc else acc ++ [cur]
  | i, b :: rest, cur, acc =>
      if b then collectGroups (i + 1) rest (cur ++ [i]) acc
      else collectGroups (i + 1) rest [] (if cur = [] then acc else acc ++ [cur])

/-- Conversion of one run into an event: runs shorter than 2 are dropped,
the duration filter keeps only [min_duration_days, max_duration_days]. -/
def eventOfGroup (std : List ℚ → ℚ) (dates : List Date) (values : List ℚ)
    (g : List ℕ) : Option EventQ :=
  if 2 ≤ g.length then
    let startIdx := g.headD 0
    let endIdx := g.getLastD 0
    let peakIdx := g.getD (argmaxQ (g.map (fun j => values.getD j 0))) 0
    let duration := toOrdinal (dates.getD endIdx d0) - toOrdinal (dates.getD startIdx d0)
    if minDurationDays ≤ duration ∧ duration ≤ maxDurationDays then
      some { start_date := dates.getD startIdx d0
             end_date := dates.getD endIdx d0
             peak_date := dates.getD peakIdx d0
             duration_days := duration
             peak_value := values.getD peakIdx 0
             intensity := values.getD peakIdx 0 - meanQ values
             confidence := calcConfidenceCore std g values }
    else none
  else none

/-- FloweringDetector._group_consecutive_exceedances. -/
def groupConsecutiveExceedances (std : List ℚ → ℚ) (dates : List Date)
    (values : List ℚ) (exceedances : List Bool) : List EventQ :=
  (collectGroups 0 exceedances [] []).filterMap (eventOfGroup std dates values)

/-! ## Tracking one event from an onset (_track_flowering_event) -/

/-- Forward peak search of _track_flowering_event: scans indices
i, i+1, ... (fuel many of them), moving the running peak forward on a new
maximum and stopping early when the value drops below 80 percent of the
running peak. -/
def peakLoop (values : List ℚ) : ℕ → ℕ → ℕ → ℚ → ℕ × ℚ
  | 0, _, pIdx, pVal => (pIdx, pVal)
  | fuel + 1, i, pIdx, pVal =>
      if values.getD i 0 > pVal then peakLoop values fuel (i + 1) i (values.getD i 0)
      else if values.getD i 0 < pVal * (4 / 5) then (pIdx, pVal)
      else peakLoop values fuel (i + 1) pIdx pVal

/-- Forward end search of _track_flowering_event: scans fuel indices from
i, returning the first index whose value falls below 70 percent of the
peak, otherwise the last scanned index (or the initial endIdx when the
range is empty). -/
def endLoop (values : List ℚ) (peakVal : ℚ) : ℕ → ℕ → ℕ → ℕ
  | 0, _, endIdx => endIdx
  | fuel + 1, i, endIdx =>
      if values.getD i 0 < peakVal * (7 / 10) then i
      else endLoop values peakVal fuel (i + 1) i

/-- FloweringDetector._track_flowering_event.  The Python guard
start_idx >= len(values) - 1 is start_idx + 1 >= len(values) for nonempty
values and always true for empty values, matching this embedding. -/
def trackFloweringEvent (std : List ℚ → ℚ) (dates : List Date) (values : List ℚ)
    (startIdx : ℕ) : Option EventQ :=
  if values.length ≤ startIdx + 1 then none
  else
    let p := peakLoop values (min values.length (startIdx + 10) - (startIdx + 1))
      (startIdx + 1) startIdx (values.getD startIdx 0)
    let peakIdx := p.1
    let peakVal := p.2
    let endIdx := endLoop values peakVal
      (min values.length (peakIdx + 15) - (peakIdx + 1)) (peakIdx + 1) peakIdx
    let duration := toOrdinal (dates.getD endIdx d0) - toOrdinal (dates.getD startIdx d0)
    if minDurationDays ≤ duration ∧ duration ≤ maxDurationDays then
      some { start_date := dates.getD startIdx d0
             end_date := dates.getD endIdx d0
             peak_date := dates.getD peakIdx d0
             duration_days := duration
             peak_value := peakVal
             intensity := peakVal - meanQ values
             confidence := calcConfidenceCore std
               (List.range' startIdx (endIdx + 1 - startIdx)) values }
    else none

/-! ## Invariant lemmas for the grouping and tracking loops -/

theorem collectGroups_ok (mask : List Bool) :
    ∀ (i : ℕ) (cur : List ℕ) (acc : List (List ℕ)),
    (∀ g ∈ acc, g ≠ [] ∧ g.Pairwise (· < ·) ∧ ∀ x ∈ g, x < i) →
    (cur.Pairwise (· < ·) ∧ ∀ x ∈ cur, x < i) →
    ∀ g ∈ collectGroups i mask cur acc,
      g ≠ [] ∧ g.Pairwise (· < ·) ∧ ∀ x ∈ g, x < i + mask.length := by
  induction mask with
  | nil =>
      intro i cur acc hacc hcur g hg
      simp only [collectGroups] at hg
      by_cases hc : cur = []
      · rw [if_pos hc] at hg
        have := hacc g hg
        exact ⟨this.1, this.2.1, fun x hx => by have := this.2.2 x hx; simpa using by omega⟩
      · rw [if_neg hc] at hg
        rcases List.mem_append.1 hg with h | h
        · have := hacc g h
          exact ⟨this.1, this.2.1, fun x hx => by have := this.2.2 x hx; simpa using by omega⟩
        · have hgc : g = cur := by simpa using h
          subst hgc
          exact ⟨hc, hcur.1, fun x hx => by have := hcur.2 x hx; simpa using by omega⟩
  | cons b rest ih =>
      intro i cur acc hacc hcur g hg
      simp only [collectGroups] at hg
      by_cases hb : b = true
      · rw [if_pos hb] at hg
        have hcur2 : (cur ++ [i]).Pairwise (· < ·) ∧ ∀ x ∈ cur ++ [i], x < i + 1 := by
          constructor
          · rw [List.pairwise_append]
            exact ⟨hcur.1, List.pairwise_singleton _ _,
              fun x hx y hy => by simp at hy; subst hy; exact hcur.2 x hx⟩
          · intro x hx
            rcases List.mem_append.1 hx with h | h
            · have := hcur.2 x h; omega
            · simp at h; omega
        have hacc2 : ∀ g ∈ acc, g ≠ [] ∧ g.Pairwise (· < ·) ∧ ∀ x ∈ g, x < i + 1 := by
          intro g hg2
          have := hacc g hg2
          exact ⟨this.1, this.2.1, fun x hx => by have := this.2.2 x hx; omega⟩
        have := ih (i + 1) (cur ++ [i]) acc hacc2 hcur2 g hg
        exact ⟨this.1, this.2.1, fun x hx => by
          have := this.2.2 x hx; simp only [List.length_cons]; omega⟩
      · rw [if_neg hb] at hg
        have hacc2 : ∀ g2 ∈ (if cur = [] then acc else acc ++ [cur]),
            g2 ≠ [] ∧ g2.Pairwise (· < ·) ∧ ∀ x ∈ g2, x < i + 1 := by
          intro g2 hg2
          by_cases hc : cur = []
          · rw [if_pos hc] at hg2
            have := hacc g2 hg2
            exact ⟨this.1, this.2.1, fun x hx => by have := this.2.2 x hx; omega⟩
          · rw [if_neg hc] at hg2
            rcases List.mem_append.1 hg2 with h | h
            · have := hacc g2 h
              exact ⟨this.1, this.2.1, fun x hx => by have := this.2.2 x hx; omega⟩
            · have hgc : g2 = cur := by simpa using h
              subst hgc
              exact ⟨hc, hcur.1, fun x hx => by have := hcur.2 x hx; omega⟩
        have := ih (i + 1) [] _ hacc2 ⟨List.Pairwise.nil, by simp⟩ g hg
        exact ⟨this.1, this.2.1, fun x hx => by
          have := this.2.2 x hx; simp only [List.length_cons]; omega⟩

theorem sorted_headD_le (g : List ℕ) (hs : g.Pairwise (· < ·)) :
    ∀ x ∈ g, g.headD 0 ≤ x := by
  match g with
  | [] => intro x hx; simp at hx
  | a :: t =>
      intro x hx
      rcases List.mem_cons.1 hx with h | h
      · subst h; simp
      · have := (List.pairwise_cons.1 hs).1 x h
        simp only [List.headD_cons]
        omega

theorem sorted_le_getLastD (g : List ℕ) (hs : g.Pairwise (· < ·)) :
    ∀ x ∈ g, x ≤ g.getLastD 0 := by
  induction g with
  | nil => intro x hx; simp at hx
  | cons a t ih =>
      intro x hx
      match t with
      | [] =>
          have : x = a := by simpa using hx
          subst this; simp
      | b :: t2 =>
          have hs2 : (b :: t2).Pairwise (· < ·) := (List.pairwise_cons.1 hs).2
          have hlast : (a :: b :: t2).getLastD 0 = (b :: t2).getLastD 0 := by
            simp [List.getLastD_cons]
          rcases List.mem_cons.1 hx with h | h
          · subst h
            have hab : x < b := (List.pairwise_cons.1 hs).1 b (by simp)
            have := ih hs2 b (by simp)
            omega
          · have := ih hs2 x h
            omega

theorem getD_mem (l : List ℕ) (k : ℕ) (hk : k < l.length) : l.getD k 0 ∈ l := by
  rw [List.getD_eq_getElem l 0 hk]
  exact List.getElem_mem hk

theorem dates_mono (dates : List Date)
    (hmono : dates.Pairwise (fun a b => toOrdinal a < toOrdinal b))
    (i j : ℕ) (hij : i ≤ j) (hj : j < dates.length) :
    toOrdinal (dates.getD i d0) ≤ toOrdinal (dates.getD j d0) := by
  rcases eq_or_lt_of_le hij with rfl | hlt
  · exact le_refl _
  · have hi : i < dates.length := lt_trans hlt hj
    rw [List.getD_eq_getElem dates d0 hi, List.getD_eq_getElem dates d0 hj]
    exact le_of_lt (List.pairwise_iff_getElem.mp hmono i j hi hj hlt)

theorem peakLoop_bounds (values : List ℚ) (fuel : ℕ) :
    ∀ (i pIdx : ℕ) (pVal : ℚ), pIdx < i →
    pIdx ≤ (peakLoop values fuel i pIdx pVal).1 ∧
      ((peakLoop values fuel i pIdx pVal).1 = pIdx ∨
        (peakLoop values fuel i pIdx pVal).1 < i + fuel) := by
  induction fuel with
  | zero =>
      intro i p v h
      simp [peakLoop]
  | succ f ih =>
      intro i p v h
      simp only [peakLoop]
      by_cases h1 : values.getD i 0 > v
      · rw [if_pos h1]
        have := ih (i + 1) i (values.getD i 0) (by omega)
        exact ⟨by omega, Or.inr (by omega)⟩
      · rw [if_neg h1]
        by_cases h2 : values.getD i 0 < v * (4 / 5)
        · rw [if_pos h2]
          exact ⟨le_refl _, Or.inl rfl⟩
        · rw [if_neg h2]
          have := ih (i + 1) p v (by omega)
          exact ⟨this.1, by omega⟩

theorem endLoop_bounds (values : List ℚ) (pVal : ℚ) (fuel : ℕ) :
    ∀ (i endIdx : ℕ), endIdx < i →
    endIdx ≤ endLoop values pVal fuel i endIdx ∧
      (endLoop values pVal fuel i endIdx = endIdx ∨
        endLoop values pVal fuel i endIdx < i + fuel) := by
  induction fuel with
  | zero =>
      intro i e h
      simp [endLoop]
  | succ f ih =>
      intro i e h
      simp only [endLoop]
      by_cases h1 : values.getD i 0 < pVal * (7 / 10)
      · rw [if_pos h1]
        exact ⟨by omega, Or.inr (by omega)⟩
      · rw [if_neg h1]
        have := ih (i + 1) i (by omega)
        exact ⟨by omega, by omega⟩

theorem headD_mem (l : List ℕ) (h : l ≠ []) : l.headD 0 ∈ l := by
  match l with
  | [] => exact absurd rfl h
  | a :: t => simp

theorem getLastD_mem (l : List ℕ) (h : l ≠ []) : l.getLastD 0 ∈ l := by
  induction l with
  | nil => exact absurd rfl h
  | cons a t ih =>
      match t with
      | [] => simp
      | b :: t2 =>
          have hm := ih (by simp)
          have hlast : (a :: b :: t2).getLastD 0 = (b :: t2).getLastD 0 := by
            simp [List.getLastD_cons]
          rw [hlast]
          exact List.mem_cons_of_mem a hm

/-- Invariant claimed for every produced Event: chronological ordering of
the three dates and the configured duration window. -/
def EventInv (e : EventQ) : Prop :=
  toOrdinal e.start_date ≤ toOrdinal e.peak_date ∧
  toOrdinal e.peak_date ≤ toOrdinal e.end_date ∧
  minDurationDays ≤ e.duration_days ∧ e.duration_days ≤ maxDurationDays

instance (e : EventQ) : Decidable (EventInv e) := by
  unfold EventInv; infer_instance

theorem eventOfGroup_inv (std : List ℚ → ℚ) (dates : List Date) (values : List ℚ)
    (hmono : dates.Pairwise (fun a b => toOrdinal a < toOrdinal b))
    (g : List ℕ) (hg : g ≠ []) (hs : g.Pairwise (· < ·))
    (hb : ∀ x ∈ g, x < dates.length)
    (e : EventQ) (hsome : eventOfGroup std dates values g = some e) : EventInv e := by
  simp only [eventOfGroup] at hsome
  split_ifs at hsome with h2 hdur
  · have hmap : (g.map (fun j => values.getD j 0)) ≠ [] := by
      simpa using hg
    have hargmax := argmaxQ_lt_length _ hmap
    rw [List.length_map] at hargmax
    have hpk_mem : g.getD (argmaxQ (g.map (fun j => values.getD j 0))) 0 ∈ g :=
      getD_mem g _ hargmax
    have hhead_le : g.headD 0 ≤ g.getD (argmaxQ (g.map (fun j => values.getD j 0))) 0 :=
      sorted_headD_le g hs _ hpk_mem
    have hle_last : g.getD (argmaxQ (g.map (fun j => values.getD j 0))) 0 ≤ g.getLastD 0 :=
      sorted_le_getLastD g hs _ hpk_mem
    have hpk_lt : g.getD (argmaxQ (g.map (fun j => values.getD j 0))) 0 < dates.length :=
      hb _ hpk_mem
    have hlast_lt : g.getLastD 0 < dates.length := hb _ (getLastD_mem g hg)
    have hd1 := dates_mono dates hmono _ _ hhead_le hpk_lt
    have hd2 := dates_mono dates hmono _ _ hle_last hlast_lt
    obtain rfl := Option.some_inj.mp hsome
    exact ⟨hd1, hd2, hdur.1, hdur.2⟩

theorem trackFloweringEvent_inv (std : List ℚ → ℚ) (dates : List Date) (values : List ℚ)
    (hmono : dates.Pairwise (fun a b => toOrdinal a < toOrdinal b))
    (hlen : values.length ≤ dates.length)
    (startIdx : ℕ) (e : EventQ)
    (hsome : trackFloweringEvent std dates values startIdx = some e) : EventInv e := by
  simp only [trackFloweringEvent] at hsome
  split_ifs at hsome with hguard hdur
  have hstart : startIdx + 1 < values.length := by omega
  set p := peakLoop values (min values.length (startIdx + 10) - (startIdx + 1))
    (startIdx + 1) startIdx (values.getD startIdx 0) with hp
  have hpk := peakLoop_bounds values
    (min values.length (startIdx + 10) - (startIdx + 1))
    (startIdx + 1) startIdx (values.getD startIdx 0) (by omega)
  rw [← hp] at hpk
  have hpk_lt : p.1 < values.length := by
    rcases hpk.2 with h | h
    · omega
    · omega
  set en := endLoop values p.2 (min values.length (p.1 + 15) - (p.1 + 1)) (p.1 + 1) p.1
    with hen
  have hend := endLoop_bounds values p.2
    (min values.length (p.1 + 15) - (p.1 + 1)) (p.1 + 1) p.1 (by omega)
  rw [← hen] at hend
  have hen_lt : en < values.length := by
    rcases hend.2 with h | h
    · omega
    · omega
  have hd1 := dates_mono dates hmono startIdx p.1 hpk.1 (by omega)
  have hd2 := dates_mono dates hmono p.1 en hend.1 (by omega)
  obtain rfl := Option.some_inj.mp hsome
  exact ⟨hd1, hd2, hdur.1, hdur.2⟩

/-- C3: the confidence returned by _calculate_confidence is a finite value
in [0, 1] for every input — all inputs on which the Python function returns
at all (an out-of-range event index raises IndexError, modelled by none) —
including degenerate series with zero standard deviation (where the numpy
division produces nan or a signed infinity) and runs with nonpositive
mean.  Universally quantified over the np.std oracle, hence true for the
actual standard deviation. -/
theorem confidence_in_unit_interval (std : List ℚ → ℚ) (eventIndices : List ℕ)
    (values : List ℚ) (c : FVal)
    (hc : calcConfidence std eventIndices values = some c) :
    ∃ q : ℚ, c = FVal.finite q ∧ 0 ≤ q ∧ q ≤ 1 := by
  simp only [calcConfidence] at hc
  split_ifs at hc with h1 h2
  · obtain rfl := Option.some_inj.mp hc
    exact ⟨0, rfl, le_refl 0, by norm_num⟩
  · obtain rfl := Option.some_inj.mp hc
    exact FVal.clamp01_mem _

/-- Witness for confidence_in_unit_interval: a constant series (std 0, so
the intensity factor divides by zero) with a two-point run; the resulting
confidence is exactly 17/25. -/
theorem confidence_in_unit_interval_witness :
    ∃ q : ℚ, FVal.finite (17 / 25) = FVal.finite q ∧ 0 ≤ q ∧ q ≤ 1 :=
  confidence_in_unit_interval (fun _ => 0) [0, 1] [1, 1, 1] (FVal.finite (17 / 25))
    (by with_unfolding_all decide)

/-- C1: every Event produced by detection — whether through the generic
run grouping used by the threshold, seasonal-anomaly and clustering
strategies (over an arbitrary boolean exceedance mask), or through the
onset tracking used by change detection (from an arbitrary onset index) —
satisfies start_date ≤ peak_date ≤ end_date and
min_duration_days (5) ≤ duration_days ≤ max_duration_days (45), provided
the input dates are strictly increasing. -/
theorem detected_events_invariant (std : List ℚ → ℚ) (dates : List Date)
    (values : List ℚ) (mask : List Bool)
    (hmono : dates.Pairwise (fun a b => toOrdinal a < toOrdinal b))
    (hmask : mask.length ≤ dates.length)
    (hlen : values.length ≤ dates.length) :
    (∀ e ∈ groupConsecutiveExceedances std dates values mask, EventInv e) ∧
    (∀ (startIdx : ℕ) (e : EventQ),
        trackFloweringEvent std dates values startIdx = some e → EventInv e) := by
  constructor
  · intro e he
    obtain ⟨g, hgmem, hgsome⟩ := List.mem_filterMap.1 he
    have hok := collectGroups_ok mask 0 [] [] (by simp) ⟨List.Pairwise.nil, by simp⟩ g hgmem
    exact eventOfGroup_inv std dates values hmono g hok.1 hok.2.1
      (fun x hx => by have := hok.2.2 x hx; omega) e hgsome
  · intro s e hsome
    exact trackFloweringEvent_inv std dates values hmono hlen s e hsome

/-- Witness for detected_events_invariant at a concrete input that
produces an event: three strictly increasing dates six days apart with the
first two mask entries set. -/
theorem detected_events_invariant_witness :
    ([(⟨1, 1, 1⟩ : Date), ⟨1, 1, 7⟩, ⟨1, 1, 13⟩].Pairwise
        (fun a b => toOrdinal a < toOrdinal b)) ∧
    ((∀ e ∈ groupConsecutiveExceedances (fun _ => 0)
        [(⟨1, 1, 1⟩ : Date), ⟨1, 1, 7⟩, ⟨1, 1, 13⟩] [1, 2, 1] [true, true, false],
        EventInv e) ∧
      (∀ (startIdx : ℕ) (e : EventQ),
        trackFloweringEvent (fun _ => 0)
          [(⟨1, 1, 1⟩ : Date), ⟨1, 1, 7⟩, ⟨1, 1, 13⟩] [1, 2, 1] startIdx = some e →
        EventInv e)) :=
  ⟨by decide,
    detected_events_invariant (fun _ => 0) _ _ _ (by decide) (by decide) (by decide)⟩

/-! ## FloweringDetector.detect_events: input record, validation, pipeline -/

/-- Location dict (only latitude/longitude are consumed by the core). -/
structure Location where
  latitude : ℚ
  longitude : ℚ
  deriving DecidableEq, Repr

/-- time_series dict of the input record; each key may be absent. -/
structure TSRec where
  dates : Option (List Date)
  values : Option (List ℚ)
  quality_flags : Option (List String)
  deriving DecidableEq, Repr

/-- satellite_data / historical_data record.  product_info is an
uninterpreted passthrough payload (the detector only copies it). -/
structure SatData where
  time_series : Option TSRec
  location : Option Location
  product_info : Option String
  deriving DecidableEq, Repr

/-- FloweringDetector._validate_data. -/
def validateData (d : SatData) : Bool :=
  match d.time_series, d.location with
  | some ts, some _ =>
      match ts.dates, ts.values with
      | some ds, some vs => ds.length == vs.length
      | _, _ => false
  | _, _ => false

/-- Good-quality indices computed by detect_events: enumerate the quality
flags (defaulted to all good when the key is absent) and keep the indices
flagged good. -/
def goodIndicesOf (ts : TSRec) : List ℕ :=
  let values := ts.values.getD []
  let qualityFlags := ts.quality_flags.getD (List.replicate values.length "good")
  (List.range qualityFlags.length).filter (fun i => qualityFlags.getD i "" == "good")

/-- FloweringDetector._classify_event_type. -/
def classifyEventType (e : EventQ) : String :=
  if e.duration_days < 10 then
    (if e.intensity > 1 / 10 then "brief_flowering" else "vegetation_pulse")
  else if e.duration_days < 25 then "typical_flowering"
  else "extended_flowering"

/-- Confidence bucket of _enrich_event; a Python float comparison
confidence > 0.8 is False for nan, so nan confidence buckets as low. -/
def confidenceLevel (c : FVal) : String :=
  if FVal.flt (FVal.finite (4 / 5)) c then "high"
  else if FVal.flt (FVal.finite (3 / 5)) c then "medium"
  else "low"

/-- Enriched event returned by detect_events.  The human-readable
description string (pure presentation, built by _generate_event_description
from the fields already present here) is not modelled. -/
structure EnrichedEvent where
  event : EventQ
  location : Location
  data_source : Option String
  event_type : String
  confidence_level : String
  deriving DecidableEq, Repr

/-- FloweringDetector._enrich_event.  The location default is unreachable:
enrichment only runs after validation, which requires the location key. -/
def enrichEvent (d : SatData) (e : EventQ) : EnrichedEvent :=
  { event := e
    location := d.location.getD ⟨0, 0⟩
    data_source := d.product_info
    event_type := classifyEventType e
    confidence_level := confidenceLevel e.confidence }

/-- FloweringDetector.detect_events.  The selected strategy (after the
unknown-name fallback to change detection) is the parameter algFn, so every
statement quantified over algFn covers all four algorithms and the
fallback.  A good index beyond the dates/values length makes the Python
list/fancy indexing raise IndexError, which the surrounding try/except
turns into []; that is the any-guard below. -/
def detectEvents (algFn : List Date → List ℚ → List EventQ) (d : SatData) :
    List EnrichedEvent :=
  if validateData d then
    match d.time_series with
    | none => []
    | some ts =>
        if (goodIndicesOf ts).length < 3 then []
        else
          let dates := ts.dates.getD []
          let values := ts.values.getD []
          if (goodIndicesOf ts).any (fun i => dates.length ≤ i || values.length ≤ i)
          then []
          else
            let cleanDates := (goodIndicesOf ts).filterMap (fun i => dates.get? i)
            let cleanValues := (goodIndicesOf ts).filterMap (fun i => values.get? i)
            (algFn cleanDates (smoothTimeSeries cleanValues)).map (enrichEvent d)
  else []

/-- C2: whenever the series has fewer than 3 good-quality observations,
detect_events returns the empty list, whatever detection strategy is
selected (algFn ranges over all of them) and without any error escaping. -/
theorem detect_too_few_good_returns_empty
    (algFn : List Date → List ℚ → List EventQ) (d : SatData) (ts : TSRec)
    (hts : d.time_series = some ts)
    (hfew : (goodIndicesOf ts).length < 3) :
    detectEvents algFn d = [] := by
  unfold detectEvents
  rw [hts]
  by_cases hv : validateData d
  · rw [if_pos hv]
    simp only
    rw [if_pos hfew]
  · rw [if_neg hv]

/-- Witness for detect_too_few_good_returns_empty: a three-point series
with only two points flagged good, under a strategy that would otherwise
report an event. -/
theorem detect_too_few_good_returns_empty_witness :
    ((⟨some ⟨some [⟨1, 1, 1⟩, ⟨1, 1, 7⟩, ⟨1, 1, 13⟩], some [1, 2, 1],
        some ["good", "cloudy", "good"]⟩, some ⟨0, 0⟩, none⟩ : SatData).time_series =
      some ⟨some [⟨1, 1, 1⟩, ⟨1, 1, 7⟩, ⟨1, 1, 13⟩], some [1, 2, 1],
        some ["good", "cloudy", "good"]⟩) ∧
    (goodIndicesOf ⟨some [⟨1, 1, 1⟩, ⟨1, 1, 7⟩, ⟨1, 1, 13⟩], some [1, 2, 1],
        some ["good", "cloudy", "good"]⟩).length < 3 ∧
    detectEvents (fun _ _ => [⟨d0, d0, d0, 7, 1, 1, FVal.nan⟩])
      ⟨some ⟨some [⟨1, 1, 1⟩, ⟨1, 1, 7⟩, ⟨1, 1, 13⟩], some [1, 2, 1],
        some ["good", "cloudy", "good"]⟩, some ⟨0, 0⟩, none⟩ = [] :=
  ⟨rfl, by with_unfolding_all decide,
    detect_too_few_good_returns_empty _ _ _ rfl (by with_unfolding_all decide)⟩

/-- C10: when the input record passes validation but carries no
quality_flags key, detect_events behaves exactly as if every observation
were flagged good: the run with absent flags equals the run with an
explicit all-good flag list (in particular the input is not rejected). -/
theorem detect_missing_flags_defaults_to_good
    (algFn : List Date → List ℚ → List EventQ) (dates : List Date)
    (values : List ℚ) (loc : Option Location) (pinfo : Option String) :
    detectEvents algFn ⟨some ⟨some dates, some values, none⟩, loc, pinfo⟩ =
      detectEvents algFn
        ⟨some ⟨some dates, some values,
          some (List.replicate values.length "good")⟩, loc, pinfo⟩ := by
  cases loc with
  | none => rfl
  | some l => rfl

/-! ## The three embeddable detection strategies

The masks computed from dynamic thresholds of the form
x > c * np.std(l) are embedded in the exactly equivalent squared form
x > 0 and x^2 > c^2 * var(l); gt_sqrt_iff_sq proves the equivalence over
the reals.  The clustering strategy delegates to sklearn KMeans
(seeded floating-point iterative optimization) and is not embedded; every
theorem about it goes through the mask-generic grouping instead. -/

theorem gt_sqrt_iff_sq (x v c : ℝ) (hv : 0 ≤ v) (hc : 0 < c) :
    c * Real.sqrt v < x ↔ 0 < x ∧ c ^ 2 * v < x ^ 2 := by
  have hrw : c * Real.sqrt v = Real.sqrt (c ^ 2 * v) := by
    rw [Real.sqrt_mul (by positivity), Real.sqrt_sq hc.le]
  rw [hrw]
  constructor
  · intro h
    have hx : 0 < x := lt_of_le_of_lt (Real.sqrt_nonneg _) h
    refine ⟨hx, ?_⟩
    have := Real.sq_sqrt (by positivity : (0:ℝ) ≤ c ^ 2 * v)
    nlinarith [Real.sqrt_nonneg (c ^ 2 * v)]
  · rintro ⟨hx, h⟩
    nlinarith [Real.sqrt_nonneg (c ^ 2 * v), Real.sq_sqrt (by positivity : (0:ℝ) ≤ c ^ 2 * v)]

/-- np.diff: successive differences. -/
def diffQ (l : List ℚ) : List ℚ := List.zipWith (fun a b => b - a) l l.tail

/-- Exceedance mask of _detect_by_threshold: baseline is the long rolling
mean with window min(n/3, 10), or the global mean when that window is
below 2; the mask marks values more than the NDVI threshold above it. -/
def thresholdMask (values : List ℚ) : List Bool :=
  if min (values.length / 3) 10 < 2 then
    values.map (fun x => decide (ndviFloweringThreshold < x - meanQ values))
  else
    List.zipWith (fun x b => decide (ndviFloweringThreshold < x - b))
      values (rollingMeanC (min (values.length / 3) 10) values)

/-- FloweringDetector._detect_by_threshold. -/
def detectByThreshold (std : List ℚ → ℚ) (dates : List Date) (values : List ℚ) :
    List EventQ :=
  groupConsecutiveExceedances std dates values (thresholdMask values)

/-- Significant-increase mask of _detect_by_change: smoothed first
differences above the dynamic threshold 1.5 * np.std(smoothed diffs),
embedded in squared form. -/
def changeMask (values : List ℚ) : List Bool :=
  (smoothTimeSeries (diffQ values)).map
    (fun x => decide (0 < x ∧ (9 / 4) * varQ (smoothTimeSeries (diffQ values)) < x ^ 2))

/-- Onset indices of _detect_by_change: marked indices whose predecessor is
not marked. -/
def changeStarts (values : List ℚ) : List ℕ :=
  (List.range (changeMask values).length).filter
    (fun i => (changeMask values).getD i false &&
      (decide (i = 0) || !((changeMask values).getD (i - 1) false)))

/-- FloweringDetector._detect_by_change. -/
def detectByChange (std : List ℚ → ℚ) (dates : List Date) (values : List ℚ) :
    List EventQ :=
  if values.length < 5 then []
  else (changeStarts values).filterMap (trackFloweringEvent std dates values)

/-- Day-of-year group of a point: all values in the series sharing its day
of year (the pandas groupby group it falls in). -/
def seasonalGroup (dates : List Date) (values : List ℚ) (p : Date × ℚ) : List ℚ :=
  (List.zip dates values).filterMap
    (fun q => if doy q.1 = doy p.1 then some q.2 else none)

/-- Anomaly mask of _detect_seasonal_anomaly.  The pandas per-day-of-year
std is the sample std (ddof=1): NaN for singleton groups, making the
std > 0 guard False (anomaly 0); for larger groups anomaly > 2 sigma is
embedded in squared form. -/
def seasonalMask (dates : List Date) (values : List ℚ) : List Bool :=
  (List.zip dates values).map (fun (p : Date × ℚ) =>
    if 2 ≤ (seasonalGroup dates values p).length then
      decide (0 < sampleVarQ (seasonalGroup dates values p) ∧
        0 < p.2 - meanQ (seasonalGroup dates values p) ∧
        anomalyThresholdSigma ^ (2 : ℕ) * sampleVarQ (seasonalGroup dates values p) <
          (p.2 - meanQ (seasonalGroup dates values p)) ^ (2 : ℕ))
    else false)

/-- FloweringDetector._detect_seasonal_anomaly. -/
def detectSeasonalAnomaly (std : List ℚ → ℚ) (dates : List Date) (values : List ℚ) :
    List EventQ :=
  if values.length < 10 then []
  else groupConsecutiveExceedances std dates values (seasonalMask dates values)

/-! ## Behaviour of the embeddable strategies on a constant series

These support the analysis of the flat-series claim: the three embeddable
strategies produce an all-false mask (or no onsets) on any constant series,
hence no events.  The clustering strategy has no such argument: its mask is
the membership of a KMeans cluster, which need not be empty on constant
input. -/

theorem meanQ_replicate (n : ℕ) (c : ℚ) (h : n ≠ 0) :
    meanQ (List.replicate n c) = c := by
  unfold meanQ listSum
  rw [List.length_replicate, List.sum_replicate, if_neg h, nsmul_eq_mul]
  have hn : (n : ℚ) ≠ 0 := Nat.cast_ne_zero.mpr h
  field_simp

theorem meanQ_const (l : List ℚ) (c : ℚ) (h : ∀ x ∈ l, x = c) (hne : l ≠ []) :
    meanQ l = c := by
  have hrep : l = List.replicate l.length c := List.eq_replicate_length.mpr h
  rw [hrep, meanQ_replicate]
  simpa using hne

theorem rollingMeanC_replicate (w n : ℕ) (c : ℚ) :
    rollingMeanC w (List.replicate n c) = List.replicate n c := by
  unfold rollingMeanC
  rw [List.length_replicate]
  apply List.eq_replicate_iff.mpr
  refine ⟨by simp, ?_⟩
  intro b hb
  obtain ⟨i, hi, rfl⟩ := List.mem_map.1 hb
  rw [List.mem_range] at hi
  rw [List.take_replicate, List.drop_replicate]
  apply meanQ_replicate
  omega

theorem smoothTimeSeries_replicate (n : ℕ) (c : ℚ) :
    smoothTimeSeries (List.replicate n c) = List.replicate n c := by
  unfold smoothTimeSeries
  split
  · rfl
  · exact rollingMeanC_replicate _ _ _

theorem getD_replicate_false (k : ℕ) : ∀ i : ℕ,
    (List.replicate k false).getD i false = false := by
  induction k with
  | zero => intro i; simp
  | succ m ih =>
      intro i
      cases i with
      | zero => simp [List.replicate_succ]
      | succ j => simp [List.replicate_succ, ih j]

theorem collectGroups_allFalse (mask : List Bool) :
    ∀ (i : ℕ) (acc : List (List ℕ)), (∀ b ∈ mask, b = false) →
    collectGroups i mask [] acc = acc := by
  induction mask with
  | nil => intro i acc _; simp [collectGroups]
  | cons b rest ih =>
      intro i acc h
      have hb : b = false := h b (by simp)
      subst hb
      show collectGroups i (false :: rest) [] acc = acc
      rw [collectGroups]
      rw [if_neg (by simp), if_pos rfl]
      exact ih (i + 1) acc (fun x hx => h x (List.mem_cons_of_mem _ hx))

theorem groupConsecutive_allFalse (std : List ℚ → ℚ) (dates : List Date)
    (values : List ℚ) (mask : List Bool) (hmask : ∀ b ∈ mask, b = false) :
    groupConsecutiveExceedances std dates values mask = [] := by
  unfold groupConsecutiveExceedances
  rw [collectGroups_allFalse mask 0 [] hmask]
  rfl

/-- On a constant series the threshold strategy produces no events: the
baseline equals the constant, so no value exceeds it by the threshold. -/
theorem flat_threshold_no_events (std : List ℚ → ℚ) (dates : List Date)
    (n : ℕ) (c : ℚ) :
    detectByThreshold std dates (List.replicate n c) = [] := by
  unfold detectByThreshold
  apply groupConsecutive_allFalse
  intro b hb
  unfold thresholdMask at hb
  split at hb
  · obtain ⟨x, hx, rfl⟩ := List.mem_map.1 hb
    have hxc := List.eq_of_mem_replicate hx
    have hn : n ≠ 0 := by
      intro h
      subst h
      simp at hx
    rw [hxc, meanQ_replicate n c hn]
    simp only [decide_eq_false_iff_not, not_lt, sub_self]
    unfold ndviFloweringThreshold
    norm_num
  · rw [rollingMeanC_replicate, List.zipWith_replicate] at hb
    have := List.eq_of_mem_replicate hb
    subst this
    simp only [decide_eq_false_iff_not, not_lt, sub_self]
    unfold ndviFloweringThreshold
    norm_num

/-- On a constant series the change-detection strategy produces no events:
all smoothed differences are zero, so no onset is marked. -/
theorem flat_change_no_events (std : List ℚ → ℚ) (dates : List Date)
    (n : ℕ) (c : ℚ) :
    detectByChange std dates (List.replicate n c) = [] := by
  unfold detectByChange
  split
  · rfl
  · have hdiff : diffQ (List.replicate n c) = List.replicate (n - 1) 0 := by
      unfold diffQ
      rw [List.tail_replicate, List.zipWith_replicate]
      have h1 : min n (n - 1) = n - 1 := by omega
      rw [h1, sub_self]
    have hmask : changeMask (List.replicate n c) = List.replicate (n - 1) false := by
      unfold changeMask
      rw [hdiff, smoothTimeSeries_replicate, List.map_replicate]
      have : decide ((0:ℚ) < 0 ∧ (9 / 4) * varQ (List.replicate (n - 1) 0) < 0 ^ 2)
          = false := by
        simp
      rw [this]
    have hstarts : changeStarts (List.replicate n c) = [] := by
      unfold changeStarts
      rw [hmask]
      apply List.filter_eq_nil_iff.mpr
      intro a _
      simp [getD_replicate_false]
    rw [hstarts]
    rfl

/-- On a constant series the seasonal-anomaly strategy produces no events:
every day-of-year group is constant, so every anomaly is zero. -/
theorem flat_seasonal_no_events (std : List ℚ → ℚ) (dates : List Date)
    (n : ℕ) (c : ℚ) :
    detectSeasonalAnomaly std dates (List.replicate n c) = [] := by
  unfold detectSeasonalAnomaly
  split
  · rfl
  · apply groupConsecutive_allFalse
    intro b hb
    unfold seasonalMask at hb
    obtain ⟨p, hp, rfl⟩ := List.mem_map.1 hb
    have hpc : p.2 = c :=
      List.eq_of_mem_replicate (List.of_mem_zip hp).2
    split
    · have hgrp : ∀ x ∈ seasonalGroup dates (List.replicate n c) p, x = c := by
        intro x hx
        unfold seasonalGroup at hx
        obtain ⟨q, hq, hqx⟩ := List.mem_filterMap.1 hx
        have : q.2 = c := List.eq_of_mem_replicate (List.of_mem_zip hq).2
        split at hqx
        · obtain rfl := Option.some_inj.mp hqx
          exact this
        · exact absurd hqx (by simp)
      rename_i hlen2
      have hne : seasonalGroup dates (List.replicate n c) p ≠ [] := by
        intro h
        rw [h] at hlen2
        simp at hlen2
      rw [meanQ_const _ c hgrp hne, hpc]
      simp
    · rfl

/-! ## Forecaster (predict_flowering) -/

/-- Prediction dict returned by predict_flowering. -/
structure PredictionQ where
  date : Date
  predicted_ndvi : ℚ
  confidence : ℚ
  flowering_probability : FVal
  deriving DecidableEq, Repr

/-- Chronological maximum of a list of dates (Python max over datetime
objects; the first of chronologically equal dates is kept).  The default is
junk for the empty list, on which Python max raises. -/
def maxDate (l : List Date) (dflt : Date) : Date :=
  match l with
  | [] => dflt
  | x :: xs => xs.foldl (fun a b => if toOrdinal a < toOrdinal b then b else a) x

theorem foldl_max_mem (xs : List Date) : ∀ a : Date,
    xs.foldl (fun a b => if toOrdinal a < toOrdinal b then b else a) a ∈ a :: xs := by
  induction xs with
  | nil => intro a; simp
  | cons y ys ih =>
      intro a
      rw [List.foldl_cons]
      rcases List.mem_cons.1 (ih (if toOrdinal a < toOrdinal y then y else a)) with h | h
      · rw [h]
        split
        · simp
        · simp
      · simp only [List.mem_cons]
        right
        right
        exact h

theorem maxDate_mem (l : List Date) (dflt : Date) (h : l ≠ []) :
    maxDate l dflt ∈ l := by
  match l with
  | [] => exact absurd rfl h
  | x :: xs => exact foldl_max_mem xs x

/-- Values of the day-of-year bucket built by _extract_seasonal_pattern. -/
def seasonalPatternVals (dates : List Date) (values : List ℚ) (day : ℕ) : List ℚ :=
  (List.zip dates values).filterMap
    (fun q => if doy q.1 = day then some q.2 else none)

/-- FloweringDetector._extract_seasonal_pattern as a lookup: the mean
historical value for a day of year, none when the day never occurs. -/
def seasonalPattern (dates : List Date) (values : List ℚ) (day : ℕ) : Option ℚ :=
  if seasonalPatternVals dates values day = [] then none
  else some (meanQ (seasonalPatternVals dates values day))

/-- Branch formula of _calculate_flowering_probability on the predicted and
typical values; the division is numpy float division (inf when the typical
value is zero). -/
def floweringProbOf (predictedValue typicalValue : ℚ) : FVal :=
  if typicalValue * (23 / 20) < predictedValue then
    FVal.pymin (FVal.finite 1)
      (FVal.div (FVal.finite (predictedValue - typicalValue)) (FVal.finite typicalValue))
  else FVal.finite 0

/-- FloweringDetector._calculate_flowering_probability: the typical value
falls back to 0.5 for a day absent from the seasonal pattern. -/
def calcFloweringProbability (dates : List Date) (values : List ℚ)
    (predictedValue : ℚ) (dayOfYear : ℕ) : FVal :=
  floweringProbOf predictedValue ((seasonalPattern dates values dayOfYear).getD (1 / 2))

/-- Predicted value for the i-th future day: the seasonal-pattern value for
its day of year (falling back to the overall mean), plus noise
np.random.normal(0, np.std(values) * 0.1), written as its standard-normal
draw z i scaled by np.std(values) * 0.1 through the std oracle. -/
def predictedNdvi (std : List ℚ → ℚ) (z : ℕ → ℚ) (dates : List Date)
    (values : List ℚ) (i : ℕ) : ℚ :=
  ((seasonalPattern dates values (doy (addDays (maxDate dates d0) (i + 1)))).getD
      (meanQ values)) + z i * (std values * (1 / 10))

/-- FloweringDetector.predict_flowering.  Missing record keys raise
KeyError and empty dates make max() raise ValueError; the try/except turns
both into [], as here. -/
def predictFlowering (std : List ℚ → ℚ) (z : ℕ → ℚ) (d : SatData)
    (daysAhead : ℕ) : List PredictionQ :=
  match d.time_series with
  | none => []
  | some ts =>
      match ts.dates, ts.values with
      | some dates, some values =>
          if dates = [] then []
          else
            (List.range daysAhead).map (fun i =>
              { date := addDays (maxDate dates d0) (i + 1)
                predicted_ndvi := predictedNdvi std z dates values i
                confidence := 7 / 10
                flowering_probability := calcFloweringProbability dates values
                  (predictedNdvi std z dates values i)
                  (doy (addDays (maxDate dates d0) (i + 1))) })
      | _, _ => []

/-- C8: for a present historical series with nonempty, well-formed dates
and any horizon n, predict_flowering returns exactly n predictions, one per
consecutive calendar day starting the day after the last (chronologically
maximal) observed date, with strictly increasing dates (consecutive
ordinals). -/
theorem predict_returns_consecutive_days (std : List ℚ → ℚ) (z : ℕ → ℚ)
    (d : SatData) (ts : TSRec) (dates : List Date) (values : List ℚ) (n : ℕ)
    (hts : d.time_series = some ts) (hd : ts.dates = some dates)
    (hv : ts.values = some values) (hne : dates ≠ [])
    (hvalid : ∀ dt ∈ dates, ValidDate dt) :
    (predictFlowering std z d n).length = n ∧
    (predictFlowering std z d n).map (fun p => p.date) =
      (List.range n).map (fun i => addDays (maxDate dates d0) (i + 1)) ∧
    List.Chain' (fun a b => toOrdinal b.date = toOrdinal a.date + 1)
      (predictFlowering std z d n) := by
  have hlastvalid : ValidDate (maxDate dates d0) :=
    hvalid _ (maxDate_mem dates d0 hne)
  have hpf : predictFlowering std z d n =
      (List.range n).map (fun i =>
        ({ date := addDays (maxDate dates d0) (i + 1)
           predicted_ndvi := predictedNdvi std z dates values i
           confidence := 7 / 10
           flowering_probability := calcFloweringProbability dates values
             (predictedNdvi std z dates values i)
             (doy (addDays (maxDate dates d0) (i + 1))) } : PredictionQ)) := by
    unfold predictFlowering
    rw [hts]
    dsimp only
    rw [hd, hv]
    dsimp only
    rw [if_neg hne]
  rw [hpf]
  refine ⟨by simp, by simp [List.map_map], ?_⟩
  rw [List.chain'_map]
  rw [List.chain'_iff_get]
  intro i hi
  simp only [List.get_eq_getElem, List.getElem_range]
  have h1 := toOrdinal_addDays (maxDate dates d0) hlastvalid (i + 1)
  have h2 := toOrdinal_addDays (maxDate dates d0) hlastvalid (i + 1 + 1)
  show toOrdinal (addDays (maxDate dates d0) (i + 1 + 1)) =
    toOrdinal (addDays (maxDate dates d0) (i + 1)) + 1
  rw [h1, h2]
  push_cast
  ring

/-- Witness for predict_returns_consecutive_days: a one-point history on
Dec 31 of year 3 with a two-day horizon. -/
theorem predict_returns_consecutive_days_witness :
    ([(⟨3, 12, 31⟩ : Date)] ≠ []) ∧
    (∀ dt ∈ [(⟨3, 12, 31⟩ : Date)], ValidDate dt) ∧
    ((predictFlowering (fun _ => 0) (fun _ => 0)
        ⟨some ⟨some [⟨3, 12, 31⟩], some [1], none⟩, none, none⟩ 2).length = 2 ∧
      (predictFlowering (fun _ => 0) (fun _ => 0)
          ⟨some ⟨some [⟨3, 12, 31⟩], some [1], none⟩, none, none⟩ 2).map
        (fun p => p.date) =
        (List.range 2).map (fun i => addDays (maxDate [⟨3, 12, 31⟩] d0) (i + 1)) ∧
      List.Chain' (fun a b => toOrdinal b.date = toOrdinal a.date + 1)
        (predictFlowering (fun _ => 0) (fun _ => 0)
          ⟨some ⟨some [⟨3, 12, 31⟩], some [1], none⟩, none, none⟩ 2)) :=
  ⟨by decide, by decide,
    predict_returns_consecutive_days (fun _ => 0) (fun _ => 0) _ _ _ _ 2
      rfl rfl rfl (by decide) (by decide)⟩

theorem meanQ_pos (l : List ℚ) (hne : l ≠ []) (hpos : ∀ x ∈ l, 0 < x) :
    0 < meanQ l := by
  unfold meanQ listSum
  rw [if_neg (by simpa using hne)]
  apply div_pos
  · exact List.sum_pos l hpos hne
  · have : 0 < l.length := List.length_pos.mpr hne
    exact_mod_cast this

theorem floweringProbOf_pos_range (p t : ℚ) (ht : 0 < t) :
    ∃ q : ℚ, floweringProbOf p t = FVal.finite q ∧ 0 ≤ q ∧ q ≤ 1 := by
  unfold floweringProbOf
  split
  · rename_i hbr
    have htne : t ≠ 0 := ne_of_gt ht
    have hnum : 0 < p - t := by nlinarith
    have hx : 0 < (p - t) / t := div_pos hnum ht
    simp only [FVal.div, if_neg htne, FVal.pymin, FVal.flt]
    by_cases h1 : (p - t) / t < 1
    · rw [if_pos (by exact decide_eq_true h1)]
      exact ⟨(p - t) / t, rfl, le_of_lt hx, le_of_lt h1⟩
    · rw [if_neg (by simpa using h1)]
      exact ⟨1, rfl, by norm_num, le_refl 1⟩
  · exact ⟨0, rfl, le_refl 0, by norm_num⟩

theorem seasonalPattern_pos (dates : List Date) (values : List ℚ)
    (hpos : ∀ v ∈ values, 0 < v) (day : ℕ) :
    0 < (seasonalPattern dates values day).getD (1 / 2) := by
  unfold seasonalPattern
  split
  · norm_num
  · rename_i hne
    simp only [Option.getD_some]
    apply meanQ_pos _ hne
    intro x hx
    unfold seasonalPatternVals at hx
    obtain ⟨q, hq, hqx⟩ := List.mem_filterMap.1 hx
    split at hqx
    · obtain rfl := Option.some_inj.mp hqx
      exact hpos _ (List.of_mem_zip hq).2
    · exact absurd hqx (by simp)

/-- C7 amended: every flowering_probability produced by predict_flowering
follows the source branch formula — 0 when the predicted value is at most
1.15 times the typical value for that day of year, min(1,
(predicted - typical)/typical) otherwise — and it lies in [0, 1] whenever
every historical value is positive (which makes every typical value
positive).  As stated in the claim the [0, 1] bound is false: with a
negative typical value the probability can be negative (see the
counterexample). -/
theorem flowering_probability_formula_and_range
    (std : List ℚ → ℚ) (z : ℕ → ℚ) (d : SatData) (ts : TSRec)
    (dates : List Date) (values : List ℚ) (n : ℕ)
    (hts : d.time_series = some ts) (hd : ts.dates = some dates)
    (hv : ts.values = some values)
    (hpos : ∀ v ∈ values, 0 < v) :
    ∀ p ∈ predictFlowering std z d n,
      p.flowering_probability =
        floweringProbOf p.predicted_ndvi
          ((seasonalPattern dates values (doy p.date)).getD (1 / 2)) ∧
      ∃ q : ℚ, p.flowering_probability = FVal.finite q ∧ 0 ≤ q ∧ q ≤ 1 := by
  intro p hp
  unfold predictFlowering at hp
  rw [hts] at hp
  dsimp only at hp
  rw [hd, hv] at hp
  dsimp only at hp
  by_cases hne : dates = []
  · rw [if_pos hne] at hp
    simp at hp
  · rw [if_neg hne] at hp
    obtain ⟨i, _, rfl⟩ := List.mem_map.1 hp
    constructor
    · rfl
    · exact floweringProbOf_pos_range _ _ (seasonalPattern_pos dates values hpos _)

/-- Witness for flowering_probability_formula_and_range: a one-point
positive history; the single prediction has flowering probability 1. -/
theorem flowering_probability_formula_and_range_witness :
    (∀ v ∈ [(1 : ℚ)], 0 < v) ∧
    ((⟨⟨4, 1, 1⟩, 1, 7 / 10, FVal.finite 1⟩ : PredictionQ).flowering_probability =
        floweringProbOf (⟨⟨4, 1, 1⟩, 1, 7 / 10, FVal.finite 1⟩ : PredictionQ).predicted_ndvi
          ((seasonalPattern [⟨3, 12, 31⟩] [1]
            (doy (⟨⟨4, 1, 1⟩, 1, 7 / 10, FVal.finite 1⟩ : PredictionQ).date)).getD (1 / 2)) ∧
      ∃ q : ℚ, (⟨⟨4, 1, 1⟩, 1, 7 / 10, FVal.finite 1⟩ : PredictionQ).flowering_probability =
        FVal.finite q ∧ 0 ≤ q ∧ q ≤ 1) :=
  ⟨by norm_num,
    flowering_probability_formula_and_range (fun _ => 0) (fun _ => 0)
      ⟨some ⟨some [⟨3, 12, 31⟩], some [1], none⟩, none, none⟩
      ⟨some [⟨3, 12, 31⟩], some [1], none⟩ [⟨3, 12, 31⟩] [1] 1
      rfl rfl rfl (by norm_num)
      ⟨⟨4, 1, 1⟩, 1, 7 / 10, FVal.finite 1⟩ (by with_unfolding_all decide)⟩

/-- C7 counterexample: the claim that flowering_probability always lies in
[0, 1] fails.  History: value -1 on Jan 1 and 1 on Dec 31 of year 3, so
the typical value for day-of-year 1 is -1 and np.std of the values is
exactly 1; a standard-normal noise draw of 1 gives predicted value -9/10
for Jan 1 of year 4, which exceeds 1.15 * (-1), and the produced
probability min(1, (-9/10 - (-1)) / (-1)) = -1/10 is negative. -/
theorem flowering_probability_out_of_range :
    (predictFlowering (fun l => if l = [-1, 1] then 1 else 0) (fun _ => 1)
        ⟨some ⟨some [⟨3, 1, 1⟩, ⟨3, 12, 31⟩], some [-1, 1], none⟩, none, none⟩ 1).map
      (fun p => p.flowering_probability) = [FVal.finite (-1 / 10)] ∧
    ¬ (0 ≤ (-1 / 10 : ℚ)) := by
  constructor
  · with_unfolding_all decide
  · norm_num

/-! ## TimeSeriesCleaner (DataProcessor in data_processor.py) -/

/-- time_series dict as handled by the cleaner: raw keys (dates as their
YYYY-MM-DD strings, values, quality_flags) plus the auxiliary channels the
filters attach.  values is taken as present (a record without it makes
every filter raise KeyError, caught by process_time_series which then
returns the input unchanged). -/
structure PTS where
  dates : Option (List String)
  values : List ℚ
  quality_flags : Option (List String)
  units : Option String
  values_smoothed : Option (List ℚ)
  smoothing_applied : Option ℕ
  evi_approximated : Option (List FVal)
  savi_approximated : Option (List FVal)
  greenness_index : Option (List FVal)
  deriving DecidableEq, Repr

/-- quality_metrics dict attached by _add_quality_metrics. -/
structure QualityMetrics where
  total_observations : ℕ
  good_quality_count : ℕ
  interpolated_count : ℕ
  outlier_corrected_count : ℕ
  data_completeness : ℚ
  temporal_consistency : ℚ
  signal_to_noise_ratio : ℚ
  deriving DecidableEq, Repr

/-- Record processed by DataProcessor.process_time_series. -/
structure PRec where
  time_series : Option PTS
  quality_metrics : Option QualityMetrics
  deriving DecidableEq, Repr

/-- Interpolated replacement for an invalid index
(_interpolate_missing_values, branch with at least two valid points):
linear interpolation between the nearest valid neighbours, one-sided copy
when only one side exists, mean of the valid values when neither does. -/
def interpValue (values : List ℚ) (valid : List ℕ) (i : ℕ) : ℚ :=
  match (valid.filter (fun j => j < i)).getLast?, (valid.filter (fun j => i < j)).head? with
  | some l, some r =>
      values.getD l 0 * (1 - (((i : ℚ) - l) / ((r : ℚ) - l))) +
        values.getD r 0 * (((i : ℚ) - l) / ((r : ℚ) - l))
  | some l, none => values.getD l 0
  | none, some r => values.getD r 0
  | none, none => meanQ (valid.map (fun j => values.getD j 0))

/-- DataProcessor._interpolate_missing_values: mask marks the valid
entries; with fewer than two valid points every invalid entry becomes the
mean of the valid values (np.nanmean of values[mask]). -/
def interpolateMissing (values : List ℚ) (mask : List Bool) : List ℚ :=
  if ((List.range values.length).filter (fun i => mask.getD i false)).length < 2 then
    values.mapIdx (fun i v => if mask.getD i false then v
      else meanQ (((List.range values.length).filter (fun j => mask.getD j false)).map
        (fun j => values.getD j 0)))
  else
    values.mapIdx (fun i v => if mask.getD i false then v
      else interpValue values ((List.range values.length).filter (fun j => mask.getD j false)) i)

/-- Good-quality mask used by _apply_cloud_mask (flags defaulted to all
good when the key is absent). -/
def cloudGood (ts : PTS) : List Bool :=
  (ts.quality_flags.getD (List.replicate ts.values.length "good")).map (fun f => f == "good")

/-- DataProcessor._apply_cloud_mask on the nested time_series. -/
def applyCloudMask (ts : PTS) : PTS :=
  if (cloudGood ts).any (fun b => !b) then
    { ts with
        values := interpolateMissing ts.values (cloudGood ts)
        quality_flags := some ((cloudGood ts).map
          (fun g => if g then "good" else "interpolated")) }
  else ts

/-- Ascending sort (numpy percentile sorts its input). -/
def sortedQ (l : List ℚ) : List ℚ := List.insertionSort (· ≤ ·) l

/-- Linear-interpolation percentile lookup at fractional rank h. -/
def percAt (s : List ℚ) (h : ℚ) : ℚ :=
  s.getD (Int.toNat ⌊h⌋) 0 +
    (h - (⌊h⌋ : ℤ)) *
      (s.getD (Int.toNat ⌊h⌋ + 1) (s.getD (Int.toNat ⌊h⌋) 0) - s.getD (Int.toNat ⌊h⌋) 0)

/-- np.percentile with its default linear interpolation:
rank h = (n - 1) * p / 100.  Junk 0 for the empty list (numpy raises). -/
def percentileQ (l : List ℚ) (p : ℚ) : ℚ :=
  percAt (sortedQ l) (((l.length : ℚ) - 1) * p / 100)

/-- Lower IQR outlier bound Q25 - 1.5 * IQR. -/
def outlierLB (values : List ℚ) : ℚ :=
  percentileQ values 25 - (3 / 2) * (percentileQ values 75 - percentileQ values 25)

/-- Upper IQR outlier bound Q75 + 1.5 * IQR. -/
def outlierUB (values : List ℚ) : ℚ :=
  percentileQ values 75 + (3 / 2) * (percentileQ values 75 - percentileQ values 25)

/-- Outlier mask of _remove_outliers. -/
def isOutlier (values : List ℚ) : List Bool :=
  values.map (fun v => decide (v < outlierLB values) || decide (outlierUB values < v))

/-- DataProcessor._remove_outliers on the nested time_series.  Note that it
inspects only the values, never the quality flags. -/
def removeOutliers (ts : PTS) : PTS :=
  if (isOutlier ts.values).any id then
    { ts with
        values := interpolateMissing ts.values ((isOutlier ts.values).map (fun b => !b))
        quality_flags := some
          ((ts.quality_flags.getD (List.replicate ts.values.length "good")).mapIdx
            (fun i f => if (isOutlier ts.values).getD i false then "outlier_corrected" else f)) }
  else ts

/-- DataProcessor._apply_temporal_smoothing: window min(5, n/2), applied
only when it is at least 3; writes the auxiliary smoothed channel and
leaves values and flags untouched. -/
def applyTemporalSmoothing (ts : PTS) : PTS :=
  if 3 ≤ min 5 (ts.values.length / 2) then
    { ts with
        values_smoothed := some (rollingMeanC (min 5 (ts.values.length / 2)) ts.values)
        smoothing_applied := some (min 5 (ts.values.length / 2)) }
  else ts

/-- Substring test (Python in operator on str). -/
def containsSub (s sub : String) : Bool := (s.splitOn sub).length != 1

/-- np.maximum on scalars: nan propagates (unlike Python max). -/
def npMax2 : FVal → FVal → FVal
  | FVal.nan, _ => FVal.nan
  | _, FVal.nan => FVal.nan
  | FVal.finite a, FVal.finite b => FVal.finite (max a b)
  | FVal.pinf, _ => FVal.pinf
  | _, FVal.pinf => FVal.pinf
  | FVal.ninf, x => x
  | x, FVal.ninf => x

/-- np.minimum on scalars: nan propagates. -/
def npMin2 : FVal → FVal → FVal
  | FVal.nan, _ => FVal.nan
  | _, FVal.nan => FVal.nan
  | FVal.finite a, FVal.finite b => FVal.finite (min a b)
  | FVal.ninf, _ => FVal.ninf
  | _, FVal.ninf => FVal.ninf
  | FVal.pinf, x => x
  | x, FVal.pinf => x

/-- np.clip(x, lo, hi). -/
def npClip (x : FVal) (lo hi : ℚ) : FVal :=
  npMin2 (npMax2 x (FVal.finite lo)) (FVal.finite hi)

/-- EVI approximation 2.5*v / (1 + 6*v - 7.5*v + 1), clipped to [-1, 1]. -/
def eviApprox (v : ℚ) : FVal :=
  npClip (FVal.div (FVal.finite ((5 / 2) * v))
    (FVal.finite (1 + 6 * v - (15 / 2) * v + 1))) (-1) 1

/-- SAVI approximation v * (1 + L) / (v + L) with L = 0.5. -/
def saviApprox (v : ℚ) : FVal :=
  FVal.div (FVal.finite (v * (3 / 2))) (FVal.finite (v + 1 / 2))

/-- Min-max normalized greenness channel (v - min) / (max - min). -/
def greennessIndex (values : List ℚ) (v : ℚ) : FVal :=
  FVal.div (FVal.finite (v - listMinQ values))
    (FVal.finite (listMaxQ values - listMinQ values))

/-- DataProcessor._calculate_vegetation_indices: attaches derived channels
when the units mention NDVI; values and flags are untouched. -/
def calcVegetationIndices (ts : PTS) : PTS :=
  if containsSub (ts.units.getD "") "NDVI" then
    { ts with
        evi_approximated := some (ts.values.map eviApprox)
        savi_approximated := some (ts.values.map saviApprox)
        greenness_index := some (ts.values.map (greennessIndex ts.values)) }
  else ts

/-- Count of flags containing a substring. -/
def substrCount (flags : List String) (sub : String) : ℕ :=
  (flags.filter (fun f => containsSub f sub)).length

/-- DataProcessor._calculate_temporal_consistency (std through the
oracle). -/
def temporalConsistency (std : List ℚ → ℚ) (values : List ℚ) : ℚ :=
  if values.length < 3 then 1
  else if 0 < meanQ ((diffQ values).map (fun x => |x|)) then
    max 0 (min 1 (1 - std (diffQ values) / meanQ ((diffQ values).map (fun x => |x|))))
  else 1

/-- DataProcessor._calculate_snr (std through the oracle); an infinite
snr (zero noise) clips to 100. -/
def snrQ (std : List ℚ → ℚ) (values : List ℚ) : ℚ :=
  if values.length < 3 then 1
  else if 5 ≤ values.length then
    if 0 < std (List.zipWith (fun a b => a - b) values (rollingMeanC 5 values)) then
      min 100 (max (1 / 10)
        (std (rollingMeanC 5 values) /
          std (List.zipWith (fun a b => a - b) values (rollingMeanC 5 values))))
    else 100
  else
    if 0 < std values then min 100 (max (1 / 10) (meanQ values / std values))
    else min 100 (max (1 / 10) 1)

/-- DataProcessor._add_quality_metrics: writes the quality_metrics key of
the (copied) record; quality_flags here defaults to [] (not to all-good). -/
def addQualityMetrics (std : List ℚ → ℚ) (r : PRec) : PRec :=
  match r.time_series with
  | none => r
  | some ts =>
      { r with quality_metrics := some (QualityMetrics.mk
          ts.values.length
          (((ts.quality_flags.getD []).filter (fun f => f == "good")).length)
          (substrCount (ts.quality_flags.getD []) "interpolated")
          (substrCount (ts.quality_flags.getD []) "outlier")
          (if ts.quality_flags.getD [] = [] then 1
            else (((ts.quality_flags.getD []).filter (fun f => f == "good")).length : ℚ) /
              ((ts.quality_flags.getD []).length : ℚ))
          (temporalConsistency std ts.values)
          (snrQ std ts.values)) }

/-- One step of the filter dispatch of process_time_series: known names
run their filter (each guards on the presence of time_series); unknown
names are skipped with a warning; spatial_aggregation is a no-op. -/
def applyFilterR (name : String) (r : PRec) : PRec :=
  match r.time_series with
  | none => r
  | some ts =>
      if name = "cloud_mask" then { r with time_series := some (applyCloudMask ts) }
      else if name = "outlier_removal" then
        { r with time_series := some (removeOutliers ts) }
      else if name = "temporal_smoothing" then
        { r with time_series := some (applyTemporalSmoothing ts) }
      else r

/-- Default filter list of process_time_series. -/
def defaultFilters : List String := ["cloud_mask", "outlier_removal", "temporal_smoothing"]

/-- Vegetation-index step lifted to the record. -/
def calcVegIndicesR (r : PRec) : PRec :=
  match r.time_series with
  | none => r
  | some ts => { r with time_series := some (calcVegetationIndices ts) }

/-- DataProcessor.process_time_series: filters in order, then derived
indices, then quality metrics, on the top-level copy of the record. -/
def processTimeSeries (std : List ℚ → ℚ) (filters : List String) (r : PRec) : PRec :=
  addQualityMetrics std
    (calcVegIndicesR (filters.foldl (fun acc name => applyFilterR name acc) r))

/-- View of the CALLER's record after process_time_series returns.
The source shallow-copies only the top level
(processed_data = raw_data.copy()), so the nested time_series dict is the
same object in both records: every in-place write a filter or the
vegetation-index step performs on it is visible to the caller, while the
quality_metrics assignment touches only the copy. -/
def callerRecAfterClean (std : List ℚ → ℚ) (filters : List String) (r : PRec) : PRec :=
  { r with time_series := (processTimeSeries std filters r).time_series }

/-! ## Cleaning-pipeline lemmas for the no-op and aliasing claims -/

theorem applyCloudMask_allGood (ts : PTS) (fl : List String)
    (hfl : ts.quality_flags = some fl) (hgood : ∀ f ∈ fl, f = "good") :
    applyCloudMask ts = ts := by
  have hfalse : (cloudGood ts).any (fun b => !b) = false := by
    unfold cloudGood
    rw [hfl]
    simp only [Option.getD_some]
    rw [List.any_eq_false]
    intro b hb
    obtain ⟨f, hf, rfl⟩ := List.mem_map.1 hb
    rw [hgood f hf]
    decide
  unfold applyCloudMask
  rw [hfalse]
  simp

theorem removeOutliers_inBounds (ts : PTS)
    (hin : ∀ v ∈ ts.values, outlierLB ts.values ≤ v ∧ v ≤ outlierUB ts.values) :
    removeOutliers ts = ts := by
  have hfalse : (isOutlier ts.values).any id = false := by
    unfold isOutlier
    rw [List.any_eq_false]
    intro b hb
    obtain ⟨v, hv, rfl⟩ := List.mem_map.1 hb
    have h := hin v hv
    simp only [id_eq, Bool.or_eq_true, decide_eq_true_eq]
    push_neg
    exact h
  unfold removeOutliers
  rw [hfalse]
  simp

theorem applyTemporalSmoothing_keeps (ts : PTS) :
    (applyTemporalSmoothing ts).values = ts.values ∧
    (applyTemporalSmoothing ts).quality_flags = ts.quality_flags := by
  unfold applyTemporalSmoothing
  split
  · exact ⟨rfl, rfl⟩
  · exact ⟨rfl, rfl⟩

theorem calcVegetationIndices_keeps (ts : PTS) :
    (calcVegetationIndices ts).values = ts.values ∧
    (calcVegetationIndices ts).quality_flags = ts.quality_flags := by
  unfold calcVegetationIndices
  split
  · exact ⟨rfl, rfl⟩
  · exact ⟨rfl, rfl⟩

theorem pipeline_preserves_values_flags (std : List ℚ → ℚ) (ts : PTS)
    (qm : Option QualityMetrics) (fl : List String)
    (hfl : ts.quality_flags = some fl) (hgood : ∀ f ∈ fl, f = "good")
    (hin : ∀ v ∈ ts.values, outlierLB ts.values ≤ v ∧ v ≤ outlierUB ts.values) :
    ∃ ts2 : PTS,
      (processTimeSeries std defaultFilters ⟨some ts, qm⟩).time_series = some ts2 ∧
      ts2.values = ts.values ∧ ts2.quality_flags = some fl := by
  have h1 : applyFilterR "cloud_mask" ⟨some ts, qm⟩ = ⟨some ts, qm⟩ := by
    unfold applyFilterR
    simp [applyCloudMask_allGood ts fl hfl hgood]
  have h2 : applyFilterR "outlier_removal" ⟨some ts, qm⟩ = ⟨some ts, qm⟩ := by
    unfold applyFilterR
    simp [removeOutliers_inBounds ts hin]
  have h3 : applyFilterR "temporal_smoothing" ⟨some ts, qm⟩ =
      ⟨some (applyTemporalSmoothing ts), qm⟩ := by
    unfold applyFilterR
    simp
  have hfold : defaultFilters.foldl (fun acc name => applyFilterR name acc)
      ⟨some ts, qm⟩ = ⟨some (applyTemporalSmoothing ts), qm⟩ := by
    unfold defaultFilters
    rw [List.foldl_cons, h1, List.foldl_cons, h2, List.foldl_cons, h3, List.foldl_nil]
  refine ⟨calcVegetationIndices (applyTemporalSmoothing ts), ?_, ?_, ?_⟩
  · unfold processTimeSeries
    rw [hfold]
    rfl
  · rw [(calcVegetationIndices_keeps _).1, (applyTemporalSmoothing_keeps _).1]
  · rw [(calcVegetationIndices_keeps _).2, (applyTemporalSmoothing_keeps _).2, hfl]

/-- C4 counterexample: the claim fails as stated.  A series whose flags
are all good but which contains an IQR outlier (values [0,0,0,0,100],
bounds collapse to [0,0]) has its last value interpolated away to 0 and
its last flag rewritten to outlier_corrected by the default pipeline,
because _remove_outliers never looks at the quality flags. -/
theorem clean_all_good_not_noop :
    (processTimeSeries (fun _ => 0) defaultFilters
        ⟨some ⟨none, [0, 0, 0, 0, 100], some ["good", "good", "good", "good", "good"],
          none, none, none, none, none, none⟩, none⟩).time_series.map
      (fun t => t.values) = some [0, 0, 0, 0, 0] ∧
    (processTimeSeries (fun _ => 0) defaultFilters
        ⟨some ⟨none, [0, 0, 0, 0, 100], some ["good", "good", "good", "good", "good"],
          none, none, none, none, none, none⟩, none⟩).time_series.map
      (fun t => t.quality_flags) =
      some (some ["good", "good", "good", "good", "outlier_corrected"]) ∧
    ([0, 0, 0, 0, 100] : List ℚ) ≠ [0, 0, 0, 0, 0] := by
  refine ⟨?_, ?_, ?_⟩ <;> with_unfolding_all decide

/-- C4 amended: for a series whose quality flags are all good AND whose
values all lie within the IQR outlier bounds, the default cleaning
pipeline leaves the values and the quality_flags unchanged (cloud masking
is a no-op on all-good flags; the outlier filter finds nothing; smoothing
and derived indices only attach auxiliary channels). -/
theorem clean_all_good_within_bounds_noop (std : List ℚ → ℚ) (ts : PTS)
    (qm : Option QualityMetrics) (fl : List String)
    (hfl : ts.quality_flags = some fl) (hgood : ∀ f ∈ fl, f = "good")
    (hin : ∀ v ∈ ts.values, outlierLB ts.values ≤ v ∧ v ≤ outlierUB ts.values) :
    ∃ ts2 : PTS,
      (processTimeSeries std defaultFilters ⟨some ts, qm⟩).time_series = some ts2 ∧
      ts2.values = ts.values ∧ ts2.quality_flags = some fl :=
  pipeline_preserves_values_flags std ts qm fl hfl hgood hin

/-- Witness for clean_all_good_within_bounds_noop: three in-bounds values
with all-good flags. -/
theorem clean_all_good_within_bounds_noop_witness :
    ((⟨none, [1, 2, 3], some ["good", "good", "good"], none, none, none, none, none,
        none⟩ : PTS).quality_flags = some ["good", "good", "good"]) ∧
    (∀ f ∈ ["good", "good", "good"], f = "good") ∧
    (∀ v ∈ (⟨none, [1, 2, 3], some ["good", "good", "good"], none, none, none, none,
        none, none⟩ : PTS).values,
      outlierLB [1, 2, 3] ≤ v ∧ v ≤ outlierUB [1, 2, 3]) ∧
    ∃ ts2 : PTS,
      (processTimeSeries (fun _ => 0) defaultFilters
        ⟨some ⟨none, [1, 2, 3], some ["good", "good", "good"], none, none, none, none,
          none, none⟩, none⟩).time_series = some ts2 ∧
      ts2.values = [1, 2, 3] ∧ ts2.quality_flags = some ["good", "good", "good"] :=
  ⟨rfl, by decide, by with_unfolding_all decide,
    clean_all_good_within_bounds_noop (fun _ => 0) _ none ["good", "good", "good"]
      rfl (by decide) (by with_unfolding_all decide)⟩

/-- C9 counterexample: the claim that clean never changes the caller's
record fails.  Because the top-level copy is shallow, the nested
time_series is shared; on six all-good constant values the smoothing
filter writes the values_smoothed channel into it in place, so after the
call the caller's own record differs from what it passed in. -/
theorem clean_mutates_callers_nested_series :
    callerRecAfterClean (fun _ => 0) defaultFilters
        ⟨some ⟨none, [1, 1, 1, 1, 1, 1], some ["good", "good", "good", "good", "good",
          "good"], none, none, none, none, none, none⟩, none⟩ ≠
      ⟨some ⟨none, [1, 1, 1, 1, 1, 1], some ["good", "good", "good", "good", "good",
        "good"], none, none, none, none, none, none⟩, none⟩ := by
  with_unfolding_all decide

/-- C9 amended: process_time_series copies only the top level of the
record, so the caller's top-level fields (e.g. quality_metrics) are
untouched, but the nested time_series dict is shared and mutated in
place.  For an all-good, in-IQR-bounds series the mutation leaves values
and quality_flags unchanged (only auxiliary channels may be attached);
otherwise the caller's own values/flags change
(clean_mutates_callers_nested_series, clean_all_good_not_noop). -/
theorem clean_shallow_copy_effects (std : List ℚ → ℚ) (ts : PTS)
    (qm : Option QualityMetrics) (fl : List String)
    (hfl : ts.quality_flags = some fl) (hgood : ∀ f ∈ fl, f = "good")
    (hin : ∀ v ∈ ts.values, outlierLB ts.values ≤ v ∧ v ≤ outlierUB ts.values) :
    (callerRecAfterClean std defaultFilters ⟨some ts, qm⟩).quality_metrics = qm ∧
    ∃ ts2 : PTS,
      (callerRecAfterClean std defaultFilters ⟨some ts, qm⟩).time_series = some ts2 ∧
      ts2.values = ts.values ∧ ts2.quality_flags = some fl := by
  refine ⟨rfl, ?_⟩
  obtain ⟨ts2, hts2, hv, hq⟩ := pipeline_preserves_values_flags std ts qm fl hfl hgood hin
  exact ⟨ts2, by unfold callerRecAfterClean; simp only; rw [hts2], hv, hq⟩

/-- Witness for clean_shallow_copy_effects at the same concrete record as
the C4 witness. -/
theorem clean_shallow_copy_effects_witness :
    ((⟨none, [1, 2, 3], some ["good", "good", "good"], none, none, none, none, none,
        none⟩ : PTS).quality_flags = some ["good", "good", "good"]) ∧
    ((callerRecAfterClean (fun _ => 0) defaultFilters
        ⟨some ⟨none, [1, 2, 3], some ["good", "good", "good"], none, none, none, none,
          none, none⟩, none⟩).quality_metrics = none ∧
      ∃ ts2 : PTS,
        (callerRecAfterClean (fun _ => 0) defaultFilters
          ⟨some ⟨none, [1, 2, 3], some ["good", "good", "good"], none, none, none, none,
            none, none⟩, none⟩).time_series = some ts2 ∧
        ts2.values = [1, 2, 3] ∧ ts2.quality_flags = some ["good", "good", "good"]) :=
  ⟨rfl,
    clean_shallow_copy_effects (fun _ => 0) _ none ["good", "good", "good"]
      rfl (by decide) (by with_unfolding_all decide)⟩

/-! ## DataProcessor.export_processed_data -/

/-- Column table built by _convert_to_csv / _convert_to_dataframe (the
to_csv string rendering of the csv variant is not modelled; the columns
are). -/
structure CsvTable where
  dates : List String
  values : List ℚ
  flags : List String
  values_smoothed : Option (List ℚ)
  evi_approximated : Option (List FVal)
  savi_approximated : Option (List FVal)
  deriving DecidableEq, Repr

/-- Export payloads; the csv/dataframe argument is none for the
empty-record early return ("" / empty DataFrame). -/
inductive ExportOut where
  | json (r : PRec)
  | csv (t : Option CsvTable)
  | dataframe (t : Option CsvTable)
  deriving DecidableEq, Repr

/-- Length agreement of an optional auxiliary column. -/
def colOk (o : Option (List ℚ)) (n : ℕ) : Bool :=
  match o with
  | none => true
  | some l => l.length == n

/-- Length agreement of an optional FVal column. -/
def colOkF (o : Option (List FVal)) (n : ℕ) : Bool :=
  match o with
  | none => true
  | some l => l.length == n

/-- DataFrame construction shared by _convert_to_csv and
_convert_to_dataframe: raises KeyError when the dates key is absent and
ValueError when column lengths disagree (pandas), neither of which
export_processed_data catches. -/
def buildTable (ts : PTS) : Except String CsvTable :=
  match ts.dates with
  | none => Except.error "KeyError: dates"
  | some ds =>
      if (ds.length == ts.values.length) &&
          ((ts.quality_flags.getD (List.replicate ts.values.length "good")).length ==
            ts.values.length) &&
          colOk ts.values_smoothed ts.values.length &&
          colOkF ts.evi_approximated ts.values.length &&
          colOkF ts.savi_approximated ts.values.length then
        Except.ok ⟨ds, ts.values,
          ts.quality_flags.getD (List.replicate ts.values.length "good"),
          ts.values_smoothed, ts.evi_approximated, ts.savi_approximated⟩
      else Except.error "ValueError: all arrays must be of the same length"

/-- DataProcessor.export_processed_data.  The unknown-format branch is the
literal raise ValueError of the source, modelled as an error that the
caller receives. -/
def exportProcessedData (r : PRec) (formatType : String) : Except String ExportOut :=
  if formatType = "json" then Except.ok (ExportOut.json r)
  else if formatType = "csv" then
    match r.time_series with
    | none => Except.ok (ExportOut.csv none)
    | some ts => (buildTable ts).map (fun t => ExportOut.csv (some t))
  else if formatType = "dataframe" then
    match r.time_series with
    | none => Except.ok (ExportOut.dataframe none)
    | some ts => (buildTable ts).map (fun t => ExportOut.dataframe (some t))
  else Except.error ("Formato no soportado: " ++ formatType)

/-- C6 counterexample: the claim that no analysis operation ever
propagates an exception fails — the cleaner's export_processed_data
explicitly raises ValueError for an unsupported format, here "xml" on an
empty record. -/
theorem export_unsupported_format_raises :
    exportProcessedData ⟨none, none⟩ "xml" =
      Except.error ("Formato no soportado: " ++ "xml") := by
  rfl

/-- C6 amended: the guarded entry points (detect_events,
predict_flowering, process_time_series) swallow every exception and
return empty or default results, but export_processed_data propagates a
ValueError to its caller for every format_type other than json, csv and
dataframe (and its csv/dataframe conversions propagate pandas errors on
malformed records). -/
theorem export_raises_exactly_on_unsupported (r : PRec) (fmt : String)
    (h1 : fmt ≠ "json") (h2 : fmt ≠ "csv") (h3 : fmt ≠ "dataframe") :
    exportProcessedData r fmt = Except.error ("Formato no soportado: " ++ fmt) := by
  unfold exportProcessedData
  rw [if_neg h1, if_neg h2, if_neg h3]

/-- Witness for export_raises_exactly_on_unsupported at format "xml". -/
theorem export_raises_exactly_on_unsupported_witness :
    ("xml" ≠ "json") ∧ ("xml" ≠ "csv") ∧ ("xml" ≠ "dataframe") ∧
    exportProcessedData ⟨none, none⟩ "xml" =
      Except.error ("Formato no soportado: " ++ "xml") :=
  ⟨by decide, by decide, by decide,
    export_raises_exactly_on_unsupported ⟨none, none⟩ "xml"
      (by decide) (by decide) (by decide)⟩

end FloraWatch
